import Mathlib

set_option maxRecDepth 16384

/-!
Verification of the kale repository's pipeline-step code-generation
template (`templates` source file, a Jinja2 template) and of the Kale
tutorial notebook's cell-tag annotations.

The template is a flat Jinja2 template rendered with a default Jinja2
`Environment` (`trim_blocks=False`, `lstrip_blocks=False`,
`keep_trailing_newline=False`).  Rendering such a template concatenates,
in template order, the literal text chunks (with `{%- ... -%}`
whitespace control applied) and the expanded loops/conditionals.  The
embedding below mirrors this node-by-node: `renderSegs` is the ordered
list of emitted chunks (one entry per top-level template construct) and
`render` is their concatenation, i.e. the rendered text.

The rendering context consists of the ten template variables:
`step_name`, `parameters_names`, `parameters_types`, `autosnapshot`,
`in_variables`, `out_variables`, `function_body`, `pipeline_name`,
`nb_path`, `marshal_path`.

The Kale tutorial notebook is embedded through the ordered list of the
`tags` metadata of its code cells (`codeCellTags`).
-/

/-- Rendering context of the pipeline-step template: one field per
template placeholder. -/
structure Ctx where
  step_name : String
  parameters_names : List String
  parameters_types : List String
  autosnapshot : Bool
  in_variables : List String
  out_variables : List String
  function_body : List String
  pipeline_name : String
  nb_path : String
  marshal_path : String

/-- Concatenation of a list of strings (the flattening of the emitted
template chunks). -/
def strConcat : List String → String
  | [] => ""
  | s :: rest => s ++ strConcat rest

/-- Python `str.join` / Jinja `join` filter: elements joined with the
separator between consecutive elements. -/
def joinSep (sep : String) : List String → String
  | [] => ""
  | [a] => a
  | a :: b :: rest => a ++ (sep ++ joinSep sep (b :: rest))

/-- Split a character list at newline characters (Python
`str.splitlines` on a string that ends with an added newline, as in
Jinja2's `indent` filter). -/
def splitNL : List Char → List (List Char)
  | [] => [[]]
  | ch :: rest =>
      if ch = '\n' then [] :: splitNL rest
      else
        match splitNL rest with
        | [] => [[ch]]
        | l :: ls => (ch :: l) :: ls

/-- Jinja2 `indent(4, True)` filter: indent the first line and every
further non-blank line by four spaces. -/
def indent4 (s : String) : String :=
  match splitNL s.data with
  | [] => "    "
  | l :: rest =>
      "    " ++ (String.mk l ++
        strConcat (rest.map (fun ln => if ln.isEmpty then "\n" else "\n    " ++ String.mk ln)))

/-- Signature items of the emitted function: template lines 1-5, each
parameter annotated with the type at the same index (a missing type
renders as the empty string, Jinja's default undefined). -/
def sigItems : List String → List String → List String
  | [], _ => []
  | a :: as, [] => (a ++ ": ") :: sigItems as []
  | a :: as, t :: ts => (a ++ (": " ++ t)) :: sigItems as ts

/-- Emitted `def` line of the step function (template lines 1-5): the
`{%- ... -%}` markers strip all whitespace inside the signature, so the
items are separated by a bare comma. -/
def defLine (c : Ctx) : String :=
  "def " ++ (c.step_name ++ ("(" ++ (joinSep "," (sigItems c.parameters_names c.parameters_types) ++ "):")))

/-- Template line 6 condition: not autosnapshot and all three lists
empty (the `pass` branch). -/
def passB (c : Ctx) : Bool :=
  !c.autosnapshot && (c.in_variables.isEmpty && (c.out_variables.isEmpty && c.function_body.isEmpty))

/-- Template line 15 (and line 87) condition: autosnapshot or one of the
three lists non-empty. -/
def metaB (c : Ctx) : Bool :=
  c.autosnapshot || (!c.in_variables.isEmpty || (!c.out_variables.isEmpty || !c.function_body.isEmpty))

/-- Template line 58 condition: one of the three code-block lists is
non-empty. -/
def runB (c : Ctx) : Bool :=
  !c.in_variables.isEmpty || (!c.out_variables.isEmpty || !c.function_body.isEmpty)

def passSeg : String := "\n    pass"

def paramsLit : String := "\n    _kale_pipeline_parameters_block = \x27\x27\x27"

def paramsTail1 : String := "\n    \x27\x27\x27.format("

def metaSeg : String := "\n    from kale.common import mlmdutils as _kale_mlmdutils\n    _kale_mlmdutils.init_metadata()\n"

def snapBLit : String := "\n    from kale.common import podutils as _kale_podutils\n    _kale_mlmdutils.call(\"link_input_rok_artifacts\")\n    _kale_podutils.snapshot_pipeline_step(\n        \""

def quoteSep : String := "\",\n        \""

def snapBTail : String := "\",\n        before=True)\n"

def loadLit : String := "\n    _kale_data_loading_block = \x27\x27\x27\n    # -----------------------DATA LOADING START--------------------------------"

def marshalLit : String := "\n    from kale.marshal import utils as _kale_marshal_utils\n    _kale_marshal_utils.set_kale_data_directory(\""

def loadTail : String := "\n    # -----------------------DATA LOADING END----------------------------------\n    \x27\x27\x27\n"

def fbLit : String := "\n    _kale_block"

def fbLit2 : String := " = \x27\x27\x27\n"

def fbLit3 : String := "\n    \x27\x27\x27\n"

def saveLit : String := "\n    _kale_data_saving_block = \x27\x27\x27\n    # -----------------------DATA SAVING START---------------------------------"

def saveTail : String := "\n    # -----------------------DATA SAVING END-----------------------------------\n    \x27\x27\x27"

def runLit : String := "\n    # run the code blocks inside a jupyter kernel\n    from kale.common.jputils import run_code as _kale_run_code\n    from kale.common.kfputils import \\\n        update_uimetadata as _kale_update_uimetadata\n    "

def tupleLit : String := "_kale_blocks = ("

def fbTupleLit : String := "\n                    _kale_block"

def tupleClose : String := "\n                    "

def runTailLit1 : String := ")\n    _kale_html_artifact = _kale_run_code(_kale_blocks)\n    with open(\"/"

def runTailLit2 : String := ".html\", \"w\") as f:\n        f.write(_kale_html_artifact)\n    _kale_update_uimetadata(\x27"

def runTailLit3 : String := "\x27)\n"

def finalExtraLit : String := "\n    from kale.common import podutils as _kale_podutils\n    _kale_mlmdutils.call(\"link_input_rok_artifacts\")"

def snapACoreLit : String := "\n    _rok_snapshot_task = _kale_podutils.snapshot_pipeline_step(\n        \""

def snapATail : String := "\",\n        before=False)"

def submitCallLit : String := "\n    _kale_mlmdutils.call(\"submit_output_rok_artifact\", _rok_snapshot_task)\n"

def markSeg : String := "\n    _kale_mlmdutils.call(\"mark_execution_complete\")"

/-- Concatenation of `finalExtraLit` and `snapACoreLit`: the leading
literal text of the after-snapshot chunk when the step is the final
auto-snapshot step. -/
def snapAFinalPre : String := "\n    from kale.common import podutils as _kale_podutils\n    _kale_mlmdutils.call(\"link_input_rok_artifacts\")\n    _rok_snapshot_task = _kale_podutils.snapshot_pipeline_step(\n        \""

/-- Template line 11: a `str`-typed parameter is assigned its value in
double quotes, any other type unquoted (`\x7b\x7d` is the literal
format placeholder of the emitted Python code). -/
def paramAssign (a t : String) : String :=
  if t == "str" then a ++ " = \"\x7b\x7d\"" else a ++ " = \x7b\x7d"

/-- Template lines 10-12: one emitted assignment line per parameter, the
type taken at the same index (missing type renders as empty string). -/
def paramAssigns : List String → List String → List String
  | [], _ => []
  | a :: as, [] => ("\n    " ++ paramAssign a "") :: paramAssigns as []
  | a :: as, t :: ts => ("\n    " ++ paramAssign a t) :: paramAssigns as ts

/-- Template lines 9-13: the pipeline-parameters block. -/
def paramsBlock (c : Ctx) : String :=
  paramsLit ++ (strConcat (paramAssigns c.parameters_names c.parameters_types) ++
    (paramsTail1 ++ (joinSep ", " c.parameters_names ++ ")\n")))

/-- Template lines 32-33 and 49-50 (identical text): import the
marshalling utilities and set the kale data directory to
`marshal_path`. -/
def marshalHead (mp : String) : String := marshalLit ++ (mp ++ "\")")

/-- Template line 35: re-load one variable from the marshalling
directory. -/
def loadLine (v : String) : String :=
  "\n    " ++ (v ++ (" = _kale_marshal_utils.load(\"" ++ (v ++ "\")")))

/-- Template lines 29-39: the data-loading block. -/
def loadBlock (c : Ctx) : String :=
  loadLit ++ (marshalHead c.marshal_path ++ (strConcat (c.in_variables.map loadLine) ++ loadTail))

/-- Template line 52: save one variable to the marshalling directory. -/
def saveLine (v : String) : String :=
  "\n    _kale_marshal_utils.save(" ++ (v ++ (", \"" ++ (v ++ "\")")))

/-- Template lines 46-56: the data-saving block. -/
def saveBlock (c : Ctx) : String :=
  saveLit ++ (marshalHead c.marshal_path ++ (strConcat (c.out_variables.map saveLine) ++ saveTail))

/-- Template lines 41-45: one emitted `_kale_block<i>` definition per
`function_body` element, `loop.index` starting at 1. -/
def fbBlock (i : Nat) (b : String) : String :=
  fbLit ++ (toString i ++ (fbLit2 ++ (indent4 b ++ fbLit3)))

/-- Chunks for the `function_body` loop, with 1-based index `i`. -/
def fbSegs : Nat → List String → List String
  | _, [] => []
  | i, b :: rest => fbBlock i b :: fbSegs (i + 1) rest

/-- Template lines 19-27: the before-snapshot chunk (a
`snapshot_pipeline_step(..., before=True)` call). -/
def snapBeforeSeg (c : Ctx) : String :=
  snapBLit ++ (c.pipeline_name ++ (quoteSep ++ (c.step_name ++ (quoteSep ++ (c.nb_path ++ snapBTail)))))

/-- Template lines 80-85: `snapshot_pipeline_step(..., before=False)`
stored in `_rok_snapshot_task` and submitted via
`submit_output_rok_artifact`. -/
def snapACore (c : Ctx) : String :=
  snapACoreLit ++ (c.pipeline_name ++ (quoteSep ++ (c.step_name ++ (quoteSep ++ (c.nb_path ++ (snapATail ++ submitCallLit))))))

/-- Template lines 75-86: the after-snapshot chunk, prefixed by lines
77-78 exactly when the step is `final_auto_snapshot`. -/
def snapAfterSeg (c : Ctx) : String :=
  (if c.step_name == "final_auto_snapshot" then finalExtraLit else "") ++ snapACore c

/-- Template lines 65-67: the `_kale_block<i>,` tuple entries (one per
`function_body` element, content-independent). -/
def fbTupleSegs : Nat → List String → List String
  | _, [] => []
  | i, _ :: rest => (fbTupleLit ++ (toString i ++ ",")) :: fbTupleSegs (i + 1) rest

/-- Template lines 63-68: the `_kale_blocks` tuple, in order: the
pipeline-parameters block iff `parameters_names` is non-empty, the
data-loading block iff `in_variables` is non-empty, one entry per
`function_body` element, the data-saving block iff `out_variables` is
non-empty. -/
def tupleText (c : Ctx) : String :=
  tupleLit ++ ((if c.parameters_names.isEmpty then "" else "_kale_pipeline_parameters_block,") ++
    ((if c.in_variables.isEmpty then "" else "_kale_data_loading_block,") ++
      (strConcat (fbTupleSegs 1 c.function_body) ++
        (tupleClose ++ (if c.out_variables.isEmpty then "" else "_kale_data_saving_block")))))

/-- Template lines 68-72: close the tuple, run the blocks, write the
HTML artifact to `/<step_name>.html` and call `update_uimetadata` with
`step_name`. -/
def runTail (c : Ctx) : String :=
  runTailLit1 ++ (c.step_name ++ (runTailLit2 ++ (c.step_name ++ runTailLit3)))

/-- Template lines 58-73: the run-code chunk. -/
def runBlock (c : Ctx) : String := runLit ++ (tupleText c ++ runTail c)

/-- Template lines 6-14: the `pass` branch, else the
pipeline-parameters block when `parameters_names` is non-empty. -/
def passOrParams (c : Ctx) : List String :=
  if passB c then [passSeg]
  else if c.parameters_names.isEmpty then [] else [paramsBlock c]

def metaSegs (c : Ctx) : List String := if metaB c then [metaSeg] else []

def snapBSegs (c : Ctx) : List String :=
  if c.autosnapshot && !(c.step_name == "final_auto_snapshot") then [snapBeforeSeg c] else []

def loadSegs (c : Ctx) : List String :=
  if c.in_variables.isEmpty then [] else [loadBlock c]

def saveSegs (c : Ctx) : List String :=
  if c.out_variables.isEmpty then [] else [saveBlock c]

def runSegs (c : Ctx) : List String := if runB c then [runBlock c] else []

def snapASegs (c : Ctx) : List String :=
  if c.autosnapshot then [snapAfterSeg c] else []

def markSegs (c : Ctx) : List String := if metaB c then [markSeg] else []

/-- The code-block chunks: data loading, the function-body blocks, data
saving (template lines 29-56). -/
def blockSegs (c : Ctx) : List String :=
  loadSegs c ++ (fbSegs 1 c.function_body ++ saveSegs c)

/-- Emitted chunks of the whole template, in template order.  The bare
`"\n"` is the newline kept after the line-18 `endif`; the `"\n\n"` is
the newline kept after the line-56 `endif` plus the blank line 57 (all
other inter-chunk whitespace is stripped by `{%-`/`-%}` markers). -/
def renderSegs (c : Ctx) : List String :=
  [defLine c] ++ (passOrParams c ++ (metaSegs c ++ (["\n"] ++ (snapBSegs c ++
    (blockSegs c ++ (["\n\n"] ++ (runSegs c ++ (snapASegs c ++ markSegs c))))))))

/-- The rendered template output. -/
def render (c : Ctx) : String := strConcat (renderSegs c)

/-- First line of a character stream: everything before the first
newline. -/
def takeLine : List Char → List Char
  | [] => []
  | ch :: rest => if ch = '\n' then [] else ch :: takeLine rest

/-- First line of a string. -/
def firstLine (s : String) : String := String.mk (takeLine s.data)

/-- Substring relation on strings, as infix of the character lists. -/
def strInfix (p s : String) : Prop := p.data <:+: s.data

/-- The `tags` metadata lists of the code cells of the Kale tutorial
notebook, in notebook order (the notebook has eight code cells; the
last one carries no tags). -/
def codeCellTags : List (List String) :=
  [["imports"],
   ["pipeline-parameters"],
   ["functions"],
   ["block:sack"],
   ["block:kid1", "prev:sack"],
   ["block:kid2", "prev:kid1"],
   ["block:kid3", "prev:kid2"],
   []]

/-- Boolean string-prefix test on the underlying character lists. -/
def hasPre (p s : String) : Bool := p.data.isPrefixOf s.data

/-- The five admissible tag shapes of the Kale annotation convention:
the literals `imports`, `pipeline-parameters`, `functions`, or
`block:<name>` / `prev:<name>` with a non-empty name. -/
def tagShapeOK (t : String) : Bool :=
  t == "imports" || (t == "pipeline-parameters" || (t == "functions" ||
    ((hasPre "block:" t && decide (6 < t.data.length)) ||
     (hasPre "prev:" t && decide (5 < t.data.length)))))

/-- Block name declared by a `block:<name>` tag. -/
def blockOf (t : String) : Option String :=
  if hasPre "block:" t then some (String.mk (t.data.drop 6)) else none

/-- Block name referenced by a `prev:<name>` tag. -/
def prevOf (t : String) : Option String :=
  if hasPre "prev:" t then some (String.mk (t.data.drop 5)) else none

def cellBlocks (ts : List String) : List String := ts.filterMap blockOf

def cellPrevs (ts : List String) : List String := ts.filterMap prevOf

/-- Every `prev:<name>` reference of every cell names a block declared
by a `block:<name>` tag on a strictly earlier cell. -/
def prevsDeclared : List String → List (List String) → Bool
  | _, [] => true
  | decl, ts :: rest =>
      (cellPrevs ts).all (fun p => decl.contains p) &&
        prevsDeclared (decl ++ cellBlocks ts) rest

def catLists : List (List α) → List α
  | [] => []
  | l :: rest => l ++ catLists rest

/-- Block names declared in the notebook, in cell order. -/
def declaredBlocks (cells : List (List String)) : List String :=
  catLists (cells.map cellBlocks)

/-- Dependency edges (block, prev) read off the cell tags, in cell
order. -/
def depEdges (cells : List (List String)) : List (String × String) :=
  catLists (cells.map (fun ts =>
    catLists ((cellBlocks ts).map (fun b => (cellPrevs ts).map (fun p => (b, p))))))

theorem data_app (s t : String) : (s ++ t).data = s.data ++ t.data :=
  String.data_append s t

theorem strExt {a b : String} (h : a.data = b.data) : a = b := by
  cases a
  cases b
  exact congrArg String.mk h

/-- Two character lists of which neither is a prefix of the other stay
distinct under arbitrary extensions. -/
theorem segNe (pa pb x y : List Char) (h1 : pa.isPrefixOf pb = false)
    (h2 : pb.isPrefixOf pa = false) : pa ++ x ≠ pb ++ y := by
  induction pa generalizing pb with
  | nil => simp [List.isPrefixOf] at h1
  | cons a as ih =>
    cases pb with
    | nil => simp [List.isPrefixOf] at h2
    | cons b bs =>
      intro he
      simp only [List.cons_append, List.cons.injEq] at he
      obtain ⟨rfl, he2⟩ := he
      simp only [List.isPrefixOf, beq_self_eq_true, Bool.true_and] at h1 h2
      exact ih bs h1 h2 he2

/-- Two strings with incompatible leading literals are distinct. -/
theorem strNe {a b : String} (pa pb : List Char) (ha : ∃ r, a.data = pa ++ r)
    (hb : ∃ r, b.data = pb ++ r) (h1 : pa.isPrefixOf pb = false)
    (h2 : pb.isPrefixOf pa = false) : a ≠ b := by
  obtain ⟨ra, ha⟩ := ha
  obtain ⟨rb, hb⟩ := hb
  intro he
  exact segNe pa pb ra rb h1 h2 (by rw [← ha, ← hb, he])

/-- A string shorter than the leading literal of another string differs
from it. -/
theorem strNeShort {a b : String} (pb : List Char) (hb : ∃ r, b.data = pb ++ r)
    (h : a.data.length < pb.length) : a ≠ b := by
  obtain ⟨rb, hb⟩ := hb
  intro he
  rw [he, hb] at h
  simp only [List.length_append] at h
  omega

theorem isEmpty_eq_false_of_ne {α : Type} {l : List α} (h : l ≠ []) : l.isEmpty = false := by
  cases l with
  | nil => exact absurd rfl h
  | cons a as => rfl

theorem ne_nil_of_isEmpty_eq_false {α : Type} {l : List α} (h : l.isEmpty = false) : l ≠ [] := by
  cases l with
  | nil => simp at h
  | cons a as => simp

theorem empty_append (s : String) : "" ++ s = s :=
  strExt (by rw [data_app]; rfl)

theorem strAppend_assoc (a b c : String) : a ++ b ++ c = a ++ (b ++ c) :=
  strExt (by simp only [data_app, List.append_assoc])

theorem strConcat_append (l1 l2 : List String) :
    strConcat (l1 ++ l2) = strConcat l1 ++ strConcat l2 := by
  induction l1 with
  | nil => rw [List.nil_append, strConcat, empty_append]
  | cons a rest ih => rw [List.cons_append, strConcat, strConcat, ih, strAppend_assoc]

/-- A chunk of the emitted chunk list is a substring of the rendered
output. -/
theorem infix_of_strConcat_mem {s : String} {l : List String} (h : s ∈ l) :
    s.data <:+: (strConcat l).data := by
  induction l with
  | nil => simp at h
  | cons a rest ih =>
    rcases List.mem_cons.mp h with h1 | h2
    · exact ⟨[], (strConcat rest).data, by simp [h1, strConcat, data_app]⟩
    · obtain ⟨u, v, huv⟩ := ih h2
      exact ⟨a.data ++ u, v, by rw [strConcat, data_app, ← huv]; simp [List.append_assoc]⟩

theorem mem_ite_singleton {α : Type} {p : Prop} [Decidable p] {x s : α}
    (h : s ∈ (if p then [x] else [])) : p ∧ s = x := by
  by_cases hp : p
  · rw [if_pos hp] at h
    exact ⟨hp, by simpa using h⟩
  · rw [if_neg hp] at h
    simp at h

theorem mem_fbSegs {s : String} : ∀ (i : Nat) (l : List String),
    s ∈ fbSegs i l → ∃ j b, s = fbBlock j b := by
  intro i l
  induction l generalizing i with
  | nil => intro h; simp [fbSegs] at h
  | cons b rest ih =>
    intro h
    rcases List.mem_cons.mp h with h1 | h2
    · exact ⟨i, b, h1⟩
    · exact ih (i + 1) h2

theorem defLine_decomp (c : Ctx) : ∃ r, (defLine c).data = "def ".data ++ r :=
  ⟨_, data_app _ _⟩

theorem paramsBlock_decomp (c : Ctx) : ∃ r, (paramsBlock c).data = paramsLit.data ++ r :=
  ⟨_, data_app _ _⟩

theorem loadBlock_decomp (c : Ctx) : ∃ r, (loadBlock c).data = loadLit.data ++ r :=
  ⟨_, data_app _ _⟩

theorem saveBlock_decomp (c : Ctx) : ∃ r, (saveBlock c).data = saveLit.data ++ r :=
  ⟨_, data_app _ _⟩

theorem fbBlock_decomp (i : Nat) (b : String) : ∃ r, (fbBlock i b).data = fbLit.data ++ r :=
  ⟨_, data_app _ _⟩

theorem runBlock_decomp (c : Ctx) : ∃ r, (runBlock c).data = runLit.data ++ r :=
  ⟨_, data_app _ _⟩

theorem snapBeforeSeg_decomp (c : Ctx) : ∃ r, (snapBeforeSeg c).data = snapBLit.data ++ r :=
  ⟨_, data_app _ _⟩

theorem lit_decomp (s : String) : ∃ r, s.data = s.data ++ r :=
  ⟨[], by simp⟩

theorem snapAfterSeg_decomp_nonfinal (c : Ctx)
    (h : (c.step_name == "final_auto_snapshot") = false) :
    ∃ r, (snapAfterSeg c).data = snapACoreLit.data ++ r := by
  refine ⟨(c.pipeline_name ++ (quoteSep ++ (c.step_name ++ (quoteSep ++ (c.nb_path ++ (snapATail ++ submitCallLit)))))).data, ?_⟩
  rw [snapAfterSeg, h]
  simp [snapACore, data_app]

theorem snapAfterSeg_decomp_final (c : Ctx)
    (h : (c.step_name == "final_auto_snapshot") = true) :
    ∃ r, (snapAfterSeg c).data = snapAFinalPre.data ++ r := by
  have hsplit : finalExtraLit ++ snapACoreLit = snapAFinalPre := by decide
  refine ⟨(c.pipeline_name ++ (quoteSep ++ (c.step_name ++ (quoteSep ++ (c.nb_path ++ (snapATail ++ submitCallLit)))))).data, ?_⟩
  rw [snapAfterSeg, h, ← hsplit]
  simp [snapACore, data_app, List.append_assoc]

/-- C7: every tag attached to a code cell of the Kale tutorial notebook
has one of exactly five shapes: the literal strings `imports`,
`pipeline-parameters`, or `functions`, or a string of the form
`block:<name>` or `prev:<name>`; no code cell carries a tag outside
these shapes. -/
theorem claim_C7 : (codeCellTags.all (fun ts => ts.all tagShapeOK)) = true := by decide

/-- C10: every `prev:<name>` tag of the Kale tutorial notebook refers to
a block declared by a `block:<name>` tag on an earlier code cell, the
blocks are declared in the order sack, kid1, kid2, kid3, and the
dependency edges form exactly the chain kid1 after sack, kid2 after
kid1, kid3 after kid2 (hence acyclic, with no dangling or forward
reference). -/
theorem claim_C10 :
    prevsDeclared [] codeCellTags = true ∧
    declaredBlocks codeCellTags = ["sack", "kid1", "kid2", "kid3"] ∧
    depEdges codeCellTags = [("kid1", "sack"), ("kid2", "kid1"), ("kid3", "kid2")] :=
  ⟨by decide, by decide, by decide⟩

/-- C6: rendering the pipeline-step template is a pure deterministic
function of the ten context fields: two contexts that agree on
`step_name`, `parameters_names`, `parameters_types`, `autosnapshot`,
`in_variables`, `out_variables`, `function_body`, `pipeline_name`,
`nb_path` and `marshal_path` render to identical output texts (`render`
takes no other input, so the output depends on no other state). -/
theorem claim_C6 (c d : Ctx)
    (h1 : c.step_name = d.step_name) (h2 : c.parameters_names = d.parameters_names)
    (h3 : c.parameters_types = d.parameters_types) (h4 : c.autosnapshot = d.autosnapshot)
    (h5 : c.in_variables = d.in_variables) (h6 : c.out_variables = d.out_variables)
    (h7 : c.function_body = d.function_body) (h8 : c.pipeline_name = d.pipeline_name)
    (h9 : c.nb_path = d.nb_path) (h10 : c.marshal_path = d.marshal_path) :
    render c = render d := by
  have he : c = d := by
    cases c
    cases d
    simp only [Ctx.mk.injEq]
    exact ⟨h1, h2, h3, h4, h5, h6, h7, h8, h9, h10⟩
  rw [he]

def c6a : Ctx := ⟨"w", ["p"], ["int"], true, ["i"], ["o"], ["b"], "pl", "nb", "/m"⟩

def c6b : Ctx := ⟨"w", ["p"], ["int"], true, ["i"], ["o"], ["b"], "pl", "nb", "/m"⟩

theorem claim_C6_witness : render c6a = render c6b :=
  claim_C6 c6a c6b rfl rfl rfl rfl rfl rfl rfl rfl rfl rfl

/-- C8: when `autosnapshot` is false and `in_variables`, `out_variables`
and `function_body` are all empty, the rendered function body is exactly
the single statement `pass` (followed only by the blank filler lines the
template always keeps), regardless of `parameters_names`: no
pipeline-parameters block, marshalling code or metadata call is
emitted. -/
theorem claim_C8 (c : Ctx) (h1 : c.autosnapshot = false) (h2 : c.in_variables = [])
    (h3 : c.out_variables = []) (h4 : c.function_body = []) :
    render c = defLine c ++ "\n    pass\n\n\n" := by
  have hp : passB c = true := by simp [passB, h1, h2, h3, h4]
  have hm : metaB c = false := by simp [metaB, h1, h2, h3, h4]
  have hr : runB c = false := by simp [runB, h2, h3, h4]
  have hsegs : renderSegs c = [defLine c, passSeg, "\n", "\n\n"] := by
    rw [renderSegs]
    simp [passOrParams, hp, metaSegs, hm, snapBSegs, h1, blockSegs, loadSegs, h2,
      saveSegs, h3, h4, fbSegs, runSegs, hr, snapASegs, markSegs]
  rw [render, hsegs]
  show defLine c ++ (passSeg ++ ("\n" ++ ("\n\n" ++ ""))) = defLine c ++ "\n    pass\n\n\n"
  exact congrArg (defLine c ++ ·) (by decide)

def c8x : Ctx := ⟨"s", ["a"], ["int"], false, [], [], [], "p", "n", "/m"⟩

theorem claim_C8_witness : render c8x = defLine c8x ++ "\n    pass\n\n\n" :=
  claim_C8 c8x rfl rfl rfl rfl

/-- C1: whenever `in_variables` is non-empty the rendered output
contains a data-loading block that first sets the kale data directory to
`marshal_path` (`marshalHead`) and then, for each name of `in_variables`
in list order, assigns the name the result of
`_kale_marshal_utils.load` of that name (`loadLine`); whenever
`out_variables` is non-empty the output contains a data-saving block
that sets the same directory and then, for each name of `out_variables`
in list order, calls `_kale_marshal_utils.save` on the variable and its
name (`saveLine`). -/
theorem claim_C1 (c : Ctx) :
    (c.in_variables ≠ [] →
      strInfix (marshalHead c.marshal_path ++ strConcat (c.in_variables.map loadLine)) (render c)) ∧
    (c.out_variables ≠ [] →
      strInfix (marshalHead c.marshal_path ++ strConcat (c.out_variables.map saveLine)) (render c)) := by
  constructor
  · intro h
    have hl : loadSegs c = [loadBlock c] := by
      rw [loadSegs, isEmpty_eq_false_of_ne h]
      rfl
    have hmem : loadBlock c ∈ renderSegs c := by
      rw [renderSegs, blockSegs, hl]
      simp [List.mem_append]
    have hinf1 : (loadBlock c).data <:+: (render c).data := by
      rw [render]
      exact infix_of_strConcat_mem hmem
    have hinf2 : (marshalHead c.marshal_path ++ strConcat (c.in_variables.map loadLine)).data <:+:
        (loadBlock c).data := by
      refine ⟨loadLit.data, loadTail.data, ?_⟩
      rw [loadBlock]
      simp [data_app, List.append_assoc]
    exact hinf2.trans hinf1
  · intro h
    have hl : saveSegs c = [saveBlock c] := by
      rw [saveSegs, isEmpty_eq_false_of_ne h]
      rfl
    have hmem : saveBlock c ∈ renderSegs c := by
      rw [renderSegs, blockSegs, hl]
      simp [List.mem_append]
    have hinf1 : (saveBlock c).data <:+: (render c).data := by
      rw [render]
      exact infix_of_strConcat_mem hmem
    have hinf2 : (marshalHead c.marshal_path ++ strConcat (c.out_variables.map saveLine)).data <:+:
        (saveBlock c).data := by
      refine ⟨saveLit.data, saveTail.data, ?_⟩
      rw [saveBlock]
      simp [data_app, List.append_assoc]
    exact hinf2.trans hinf1

def c1x : Ctx := ⟨"st", [], [], false, ["x"], ["y"], [], "p", "n", "/mm"⟩

theorem claim_C1_witness :
    strInfix (marshalHead c1x.marshal_path ++ strConcat (c1x.in_variables.map loadLine)) (render c1x) ∧
    strInfix (marshalHead c1x.marshal_path ++ strConcat (c1x.out_variables.map saveLine)) (render c1x) :=
  ⟨(claim_C1 c1x).1 (by decide), (claim_C1 c1x).2 (by decide)⟩

theorem passB_not_metaB (c : Ctx) : passB c = !metaB c := by
  simp [passB, metaB]

theorem metaB_of_conds (c : Ctx)
    (h : c.autosnapshot = true ∨ c.in_variables ≠ [] ∨ c.out_variables ≠ [] ∨ c.function_body ≠ []) :
    metaB c = true := by
  rcases h with h | h | h | h
  · simp [metaB, h]
  · simp [metaB, isEmpty_eq_false_of_ne h]
  · simp [metaB, isEmpty_eq_false_of_ne h]
  · simp [metaB, isEmpty_eq_false_of_ne h]

theorem conds_of_metaB (c : Ctx) (h : metaB c = true) :
    c.autosnapshot = true ∨ c.in_variables ≠ [] ∨ c.out_variables ≠ [] ∨ c.function_body ≠ [] := by
  rw [metaB] at h
  simp only [Bool.or_eq_true, Bool.not_eq_true'] at h
  rcases h with h | h | h | h
  · exact Or.inl h
  · exact Or.inr (Or.inl (ne_nil_of_isEmpty_eq_false h))
  · exact Or.inr (Or.inr (Or.inl (ne_nil_of_isEmpty_eq_false h)))
  · exact Or.inr (Or.inr (Or.inr (ne_nil_of_isEmpty_eq_false h)))

/-- C9: in the emitted pipeline-parameters block (present whenever
`parameters_names` is non-empty and the all-empty `pass` condition
fails), each parameter whose entry of `parameters_types` is `str` is
assigned its runtime value wrapped in double quotes and any other
parameter is assigned unquoted (`paramAssigns`), and the block's
`.format` call receives exactly the `parameters_names` joined in order
(`joinSep ", "`). -/
theorem claim_C9 (c : Ctx) (h1 : c.parameters_names ≠ [])
    (h2 : c.autosnapshot = true ∨ c.in_variables ≠ [] ∨ c.out_variables ≠ [] ∨ c.function_body ≠ []) :
    strInfix (strConcat (paramAssigns c.parameters_names c.parameters_types) ++
      (paramsTail1 ++ joinSep ", " c.parameters_names)) (render c) := by
  have hmB := metaB_of_conds c h2
  have hpB : passB c = false := by rw [passB_not_metaB, hmB]; rfl
  have hpp : passOrParams c = [paramsBlock c] := by
    rw [passOrParams, hpB, isEmpty_eq_false_of_ne h1]
    rfl
  have hmem : paramsBlock c ∈ renderSegs c := by
    rw [renderSegs, hpp]
    simp [List.mem_append]
  have hinf1 : (paramsBlock c).data <:+: (render c).data := by
    rw [render]
    exact infix_of_strConcat_mem hmem
  have hinf2 : (strConcat (paramAssigns c.parameters_names c.parameters_types) ++
      (paramsTail1 ++ joinSep ", " c.parameters_names)).data <:+: (paramsBlock c).data := by
    refine ⟨paramsLit.data, ")\n".data, ?_⟩
    rw [paramsBlock]
    simp [data_app, List.append_assoc]
  exact hinf2.trans hinf1

def c9x : Ctx := ⟨"s9", ["a", "b"], ["str", "int"], true, [], [], [], "p", "n", "/m"⟩

theorem claim_C9_witness :
    strInfix (strConcat (paramAssigns c9x.parameters_names c9x.parameters_types) ++
      (paramsTail1 ++ joinSep ", " c9x.parameters_names)) (render c9x) :=
  claim_C9 c9x (by decide) (Or.inl rfl)

/-- C3: whenever one of `in_variables`, `out_variables`, `function_body`
is non-empty, the emitted code contains the `_kale_blocks` tuple passed
to `_kale_run_code` with, in order: the pipeline-parameters block iff
`parameters_names` is non-empty, the data-loading block iff
`in_variables` is non-empty, one `_kale_block<i>` per `function_body`
element in list order, and the data-saving block iff `out_variables` is
non-empty (`tupleText`), immediately followed by writing the returned
HTML artifact to `/<step_name>.html` and calling `update_uimetadata`
with `step_name` (`runTail`).  When all three lists are empty the chunk
list contains none of this (no run, load, save or function-body
chunk). -/
theorem claim_C3 (c : Ctx) :
    ((c.in_variables ≠ [] ∨ c.out_variables ≠ [] ∨ c.function_body ≠ []) →
      strInfix (tupleText c ++ runTail c) (render c)) ∧
    (c.in_variables = [] ∧ c.out_variables = [] ∧ c.function_body = [] →
      renderSegs c = [defLine c] ++ (passOrParams c ++ (metaSegs c ++ (["\n"] ++
        (snapBSegs c ++ (["\n\n"] ++ (snapASegs c ++ markSegs c))))))) := by
  constructor
  · intro h
    have hrB : runB c = true := by
      rcases h with h | h | h
      · simp [runB, isEmpty_eq_false_of_ne h]
      · simp [runB, isEmpty_eq_false_of_ne h]
      · simp [runB, isEmpty_eq_false_of_ne h]
    have hrs : runSegs c = [runBlock c] := by rw [runSegs, hrB]; rfl
    have hmem : runBlock c ∈ renderSegs c := by
      rw [renderSegs, hrs]
      simp [List.mem_append]
    have hinf1 : (runBlock c).data <:+: (render c).data := by
      rw [render]
      exact infix_of_strConcat_mem hmem
    have hinf2 : (tupleText c ++ runTail c).data <:+: (runBlock c).data := by
      refine ⟨runLit.data, [], ?_⟩
      rw [runBlock]
      simp [data_app, List.append_assoc]
    exact hinf2.trans hinf1
  · rintro ⟨h2, h3, h4⟩
    have hrB : runB c = false := by simp [runB, h2, h3, h4]
    simp [renderSegs, blockSegs, loadSegs, saveSegs, runSegs, hrB, h2, h3, h4, fbSegs]

def c3x : Ctx := ⟨"s3", ["p1"], ["int"], false, [], [], ["body"], "pl", "nb", "/m"⟩

def c3y : Ctx := ⟨"s3e", [], [], true, [], [], [], "pl", "nb", "/m"⟩

theorem claim_C3_witness :
    strInfix (tupleText c3x ++ runTail c3x) (render c3x) ∧
    renderSegs c3y = [defLine c3y] ++ (passOrParams c3y ++ (metaSegs c3y ++ (["\n"] ++
      (snapBSegs c3y ++ (["\n\n"] ++ (snapASegs c3y ++ markSegs c3y)))))) :=
  ⟨(claim_C3 c3x).1 (Or.inr (Or.inr (by decide))), (claim_C3 c3y).2 ⟨rfl, rfl, rfl⟩⟩

theorem strMk_data (s : String) : String.mk s.data = s := by
  cases s
  rfl

theorem takeLine_append (l t : List Char) (h : '\n' ∉ l) :
    takeLine (l ++ '\n' :: t) = l := by
  induction l with
  | nil => simp [takeLine]
  | cons a as ih =>
    simp only [List.mem_cons, not_or] at h
    rw [List.cons_append, takeLine, if_neg (fun he => h.1 he.symm), ih h.2]

theorem noNL_joinSep (l : List String) (h : ∀ s ∈ l, '\n' ∉ s.data) :
    '\n' ∉ (joinSep "," l).data := by
  induction l with
  | nil => rw [joinSep]; decide
  | cons a rest ih =>
    cases rest with
    | nil => exact h a (by simp)
    | cons b bs =>
      rw [joinSep]
      intro hmem
      simp only [data_app, List.mem_append] at hmem
      rcases hmem with hx | hx | hx
      · exact h a (by simp) hx
      · exact absurd hx (by decide)
      · exact ih (fun s hs => h s (List.mem_cons_of_mem _ hs)) hx

theorem noNL_sigItems : ∀ (pn pt : List String), (∀ a ∈ pn, '\n' ∉ a.data) →
    (∀ t ∈ pt, '\n' ∉ t.data) → ∀ s ∈ sigItems pn pt, '\n' ∉ s.data := by
  intro pn
  induction pn with
  | nil =>
    intro pt _ _ s hs
    simp [sigItems] at hs
  | cons a as ih =>
    intro pt h1 h2 s hs
    cases pt with
    | nil =>
      rw [sigItems] at hs
      rcases List.mem_cons.mp hs with rfl | hs2
      · intro hmem
        simp only [data_app, List.mem_append] at hmem
        rcases hmem with hx | hx
        · exact h1 a (by simp) hx
        · exact absurd hx (by decide)
      · exact ih [] (fun x hx => h1 x (List.mem_cons_of_mem _ hx)) (by intro t ht; simp at ht) s hs2
    | cons t ts =>
      rw [sigItems] at hs
      rcases List.mem_cons.mp hs with rfl | hs2
      · intro hmem
        simp only [data_app, List.mem_append] at hmem
        rcases hmem with hx | hx | hx
        · exact h1 a (by simp) hx
        · exact absurd hx (by decide)
        · exact h2 t (by simp) hx
      · exact ih ts (fun x hx => h1 x (List.mem_cons_of_mem _ hx))
          (fun x hx => h2 x (List.mem_cons_of_mem _ hx)) s hs2

theorem strConcat_cons_head (s : String) (l : List String) (c0 : Char)
    (h : ∃ r, s.data = c0 :: r) : ∃ r, (strConcat (s :: l)).data = c0 :: r := by
  obtain ⟨r, hr⟩ := h
  exact ⟨r ++ (strConcat l).data, by rw [strConcat, data_app, hr]; rfl⟩

theorem head_shift {s : String} {pa : List Char} {c0 : Char} {t : List Char}
    (hd : ∃ r, s.data = pa ++ r) (hpa : pa = c0 :: t) : ∃ r, s.data = c0 :: r := by
  obtain ⟨r, hr⟩ := hd
  exact ⟨t ++ r, by rw [hr, hpa]; rfl⟩

/-- C2: the first line of the rendered output is a Python `def` of
`step_name` whose parameter list is exactly `parameters_names` in
order, each annotated (after `: `) with the entry of `parameters_types`
at the same index, comma-separated with no trailing comma; empty
`parameters_names` yields an empty parameter list.  The hypotheses say
the interpolated names contain no newline (otherwise they would span
lines and the emitted text would not be a function definition at
all). -/
theorem claim_C2 (c : Ctx)
    (h1 : '\n' ∉ c.step_name.data)
    (h2 : ∀ a ∈ c.parameters_names, '\n' ∉ a.data)
    (h3 : ∀ t ∈ c.parameters_types, '\n' ∉ t.data) :
    firstLine (render c) =
      "def " ++ (c.step_name ++ ("(" ++
        (joinSep "," (sigItems c.parameters_names c.parameters_types) ++ "):"))) := by
  have hnl : '\n' ∉ (defLine c).data := by
    intro hmem
    rw [defLine] at hmem
    simp only [data_app, List.mem_append] at hmem
    rcases hmem with hx | hx | hx | hx | hx
    · exact absurd hx (by decide)
    · exact h1 hx
    · exact absurd hx (by decide)
    · exact noNL_joinSep _ (noNL_sigItems _ _ h2 h3) hx
    · exact absurd hx (by decide)
  have hrest : ∃ t, (strConcat (passOrParams c ++ (metaSegs c ++ (["\n"] ++ (snapBSegs c ++
      (blockSegs c ++ (["\n\n"] ++ (runSegs c ++ (snapASegs c ++ markSegs c))))))))).data =
      '\n' :: t := by
    by_cases hp : passB c = true
    · have hpp : passOrParams c = [passSeg] := by rw [passOrParams, hp]; rfl
      rw [hpp]
      exact strConcat_cons_head _ _ _ ⟨"    pass".data, by decide⟩
    · have hp2 : passB c = false := by
        cases hb : passB c
        · rfl
        · exact absurd hb hp
      have hmB : metaB c = true := by
        have := passB_not_metaB c
        rw [hp2] at this
        cases hb : metaB c
        · rw [hb] at this; exact absurd this.symm (by decide)
        · rfl
      by_cases hpe : c.parameters_names.isEmpty = true
      · have hpp : passOrParams c = [] := by rw [passOrParams, hp2, hpe]; rfl
        have hms : metaSegs c = [metaSeg] := by rw [metaSegs, hmB]; rfl
        rw [hpp, hms]
        rw [List.nil_append, List.cons_append]
        exact strConcat_cons_head _ _ _ ⟨metaSeg.data.tail, by decide⟩
      · have hpe2 : c.parameters_names.isEmpty = false := by
          cases hb : c.parameters_names.isEmpty
          · rfl
          · exact absurd hb hpe
        have hpp : passOrParams c = [paramsBlock c] := by rw [passOrParams, hp2, hpe2]; rfl
        rw [hpp]
        exact strConcat_cons_head _ _ _
          (head_shift (paramsBlock_decomp c)
            (show paramsLit.data = '\n' :: paramsLit.data.tail by decide))
  obtain ⟨t, ht⟩ := hrest
  have hdata : (render c).data = (defLine c).data ++ '\n' :: t := by
    rw [render, renderSegs]
    show ((defLine c) ++ strConcat (passOrParams c ++ (metaSegs c ++ (["\n"] ++ (snapBSegs c ++
      (blockSegs c ++ (["\n\n"] ++ (runSegs c ++ (snapASegs c ++ markSegs c))))))))).data = _
    rw [data_app, ht]
  rw [firstLine, hdata, takeLine_append _ _ hnl]
  exact strMk_data (defLine c)

def c2x : Ctx := ⟨"mystep", ["a", "b"], ["int", "str"], false, [], [], [], "p", "n", "/m"⟩

theorem claim_C2_witness :
    firstLine (render c2x) =
      "def " ++ (c2x.step_name ++ ("(" ++
        (joinSep "," (sigItems c2x.parameters_names c2x.parameters_types) ++ "):"))) :=
  claim_C2 c2x (by decide) (by decide) (by decide)

theorem eq_nil_of_isEmpty {α : Type} {l : List α} (h : l.isEmpty = true) : l = [] := by
  cases l with
  | nil => rfl
  | cons a as => simp at h

theorem metaB_false_parts (c : Ctx) (h : metaB c = false) :
    c.autosnapshot = false ∧ c.in_variables = [] ∧ c.out_variables = [] ∧ c.function_body = [] := by
  rw [metaB] at h
  simp only [Bool.or_eq_false_iff, Bool.not_eq_false'] at h
  exact ⟨h.1, eq_nil_of_isEmpty h.2.1, eq_nil_of_isEmpty h.2.2.1, eq_nil_of_isEmpty h.2.2.2⟩

theorem renderSegs_pass (c : Ctx) (h1 : c.autosnapshot = false) (h2 : c.in_variables = [])
    (h3 : c.out_variables = []) (h4 : c.function_body = []) :
    renderSegs c = [defLine c, passSeg, "\n", "\n\n"] := by
  have hp : passB c = true := by simp [passB, h1, h2, h3, h4]
  have hm : metaB c = false := by simp [metaB, h1, h2, h3, h4]
  have hr : runB c = false := by simp [runB, h2, h3, h4]
  rw [renderSegs]
  simp [passOrParams, hp, metaSegs, hm, snapBSegs, h1, blockSegs, loadSegs, h2,
    saveSegs, h3, h4, fbSegs, runSegs, hr, snapASegs, markSegs]

theorem mem_ite_nil_singleton {α : Type} {p : Prop} [Decidable p] {x s : α}
    (h : s ∈ (if p then [] else [x])) : s = x := by
  by_cases hp : p
  · rw [if_pos hp] at h
    simp at h
  · rw [if_neg hp] at h
    simpa using h

theorem mem_passOrParams {s : String} {c : Ctx} (h : s ∈ passOrParams c) :
    s = passSeg ∨ s = paramsBlock c := by
  rw [passOrParams] at h
  by_cases hp : passB c = true
  · rw [if_pos hp] at h
    exact Or.inl (by simpa using h)
  · rw [if_neg hp] at h
    by_cases hq : c.parameters_names.isEmpty = true
    · rw [if_pos hq] at h
      simp at h
    · rw [if_neg hq] at h
      exact Or.inr (by simpa using h)

theorem strBeq_false_of_ne {a b : String} (h : a ≠ b) : (a == b) = false := by
  cases hb : a == b
  · rfl
  · exact absurd (eq_of_beq hb) h

theorem strNe_of_beq_false {a b : String} (h : (a == b) = false) : a ≠ b := by
  intro he
  subst he
  simp at h

/-- A string whose text starts with one of the three snapshot-chunk
leading literals differs from every other chunk shape of the emitted
chunk list. -/
theorem ne_other_segs (c : Ctx) (s : String) (pa : List Char)
    (hdec : ∃ r, s.data = pa ++ r)
    (hpa : pa = snapBLit.data ∨ pa = snapACoreLit.data ∨ pa = snapAFinalPre.data) :
    s ≠ defLine c ∧ s ≠ passSeg ∧ s ≠ paramsBlock c ∧ s ≠ metaSeg ∧ s ≠ "\n" ∧
    s ≠ loadBlock c ∧ (∀ j b, s ≠ fbBlock j b) ∧ s ≠ saveBlock c ∧ s ≠ "\n\n" ∧
    s ≠ runBlock c ∧ s ≠ markSeg := by
  rcases hpa with rfl | rfl | rfl
  all_goals
    exact ⟨strNe _ "def ".data hdec (defLine_decomp c) (by decide) (by decide),
      strNe _ passSeg.data hdec (lit_decomp passSeg) (by decide) (by decide),
      strNe _ paramsLit.data hdec (paramsBlock_decomp c) (by decide) (by decide),
      strNe _ metaSeg.data hdec (lit_decomp metaSeg) (by decide) (by decide),
      Ne.symm (strNeShort (a := "\n") _ hdec (by decide)),
      strNe _ loadLit.data hdec (loadBlock_decomp c) (by decide) (by decide),
      fun j b => strNe _ fbLit.data hdec (fbBlock_decomp j b) (by decide) (by decide),
      strNe _ saveLit.data hdec (saveBlock_decomp c) (by decide) (by decide),
      strNe _ "\n\n".data hdec (lit_decomp "\n\n") (by decide) (by decide),
      strNe _ runLit.data hdec (runBlock_decomp c) (by decide) (by decide),
      strNe _ markSeg.data hdec (lit_decomp markSeg) (by decide) (by decide)⟩

/-- The before-snapshot chunk occurs among the emitted chunks only when
its emission condition (line 19 of the template) holds. -/
theorem snapBeforeSeg_mem (c : Ctx) (hmem : snapBeforeSeg c ∈ renderSegs c) :
    (c.autosnapshot && !(c.step_name == "final_auto_snapshot")) = true := by
  obtain ⟨hdl, hps, hpb, hms, hnl, hlb, hfb, hsb2, hnl2, hrb, hmk⟩ :=
    ne_other_segs c (snapBeforeSeg c) snapBLit.data (snapBeforeSeg_decomp c) (Or.inl rfl)
  rw [renderSegs] at hmem
  simp only [List.mem_append, List.mem_singleton] at hmem
  rcases hmem with he | he | he | he | he | he | he | he | he | he
  · exact absurd he hdl
  · rcases mem_passOrParams he with he | he
    · exact absurd he hps
    · exact absurd he hpb
  · rw [metaSegs] at he
    exact absurd (mem_ite_singleton he).2 hms
  · exact absurd he hnl
  · rw [snapBSegs] at he
    exact (mem_ite_singleton he).1
  · rw [blockSegs] at he
    simp only [List.mem_append] at he
    rcases he with he | he | he
    · rw [loadSegs] at he
      exact absurd (mem_ite_nil_singleton he) hlb
    · obtain ⟨j, b, he⟩ := mem_fbSegs _ _ he
      exact absurd he (hfb j b)
    · rw [saveSegs] at he
      exact absurd (mem_ite_nil_singleton he) hsb2
  · exact absurd he hnl2
  · rw [runSegs] at he
    exact absurd (mem_ite_singleton he).2 hrb
  · rw [snapASegs] at he
    have he2 := (mem_ite_singleton he).2
    cases hf : c.step_name == "final_auto_snapshot"
    · exact absurd he2 (strNe snapBLit.data snapACoreLit.data (snapBeforeSeg_decomp c)
        (snapAfterSeg_decomp_nonfinal c hf) (by decide) (by decide))
    · exact absurd he2 (strNe snapBLit.data snapAFinalPre.data (snapBeforeSeg_decomp c)
        (snapAfterSeg_decomp_final c hf) (by decide) (by decide))
  · rw [markSegs] at he
    exact absurd (mem_ite_singleton he).2 hmk

/-- The after-snapshot chunk occurs among the emitted chunks only when
`autosnapshot` is true. -/
theorem snapAfterSeg_mem (c : Ctx) (hmem : snapAfterSeg c ∈ renderSegs c) :
    c.autosnapshot = true := by
  cases ha : c.autosnapshot with
  | true => rfl
  | false =>
    exfalso
    have hd : ∃ pa, (pa = snapBLit.data ∨ pa = snapACoreLit.data ∨ pa = snapAFinalPre.data) ∧
        (∃ r, (snapAfterSeg c).data = pa ++ r) := by
      cases hf : c.step_name == "final_auto_snapshot"
      · exact ⟨snapACoreLit.data, Or.inr (Or.inl rfl), snapAfterSeg_decomp_nonfinal c hf⟩
      · exact ⟨snapAFinalPre.data, Or.inr (Or.inr rfl), snapAfterSeg_decomp_final c hf⟩
    obtain ⟨pa, hpa, hdec⟩ := hd
    obtain ⟨hdl, hps, hpb, hms, hnl, hlb, hfb, hsb2, hnl2, hrb, hmk⟩ :=
      ne_other_segs c (snapAfterSeg c) pa hdec hpa
    rw [renderSegs] at hmem
    simp only [List.mem_append, List.mem_singleton] at hmem
    rcases hmem with he | he | he | he | he | he | he | he | he | he
    · exact absurd he hdl
    · rcases mem_passOrParams he with he | he
      · exact absurd he hps
      · exact absurd he hpb
    · rw [metaSegs] at he
      exact absurd (mem_ite_singleton he).2 hms
    · exact absurd he hnl
    · rw [snapBSegs] at he
      have := (mem_ite_singleton he).1
      rw [ha] at this
      simp at this
    · rw [blockSegs] at he
      simp only [List.mem_append] at he
      rcases he with he | he | he
      · rw [loadSegs] at he
        exact absurd (mem_ite_nil_singleton he) hlb
      · obtain ⟨j, b, he⟩ := mem_fbSegs _ _ he
        exact absurd he (hfb j b)
      · rw [saveSegs] at he
        exact absurd (mem_ite_nil_singleton he) hsb2
    · exact absurd he hnl2
    · rw [runSegs] at he
      exact absurd (mem_ite_singleton he).2 hrb
    · rw [snapASegs] at he
      have := (mem_ite_singleton he).1
      rw [ha] at this
      simp at this
    · rw [markSegs] at he
      exact absurd (mem_ite_singleton he).2 hmk

theorem metaSeg_notin_pass (c : Ctx) (h : metaB c = false) : metaSeg ∉ renderSegs c := by
  obtain ⟨h1, h2, h3, h4⟩ := metaB_false_parts c h
  rw [renderSegs_pass c h1 h2 h3 h4]
  intro hmem
  simp only [List.mem_cons, List.mem_singleton] at hmem
  rcases hmem with he | he | he | he
  · exact strNe metaSeg.data "def ".data (lit_decomp metaSeg) (defLine_decomp c)
      (by decide) (by decide) he
  · exact absurd he (by decide)
  · exact absurd he (by decide)
  · exact absurd he (by decide)

theorem markSeg_notin_pass (c : Ctx) (h : metaB c = false) : markSeg ∉ renderSegs c := by
  obtain ⟨h1, h2, h3, h4⟩ := metaB_false_parts c h
  rw [renderSegs_pass c h1 h2 h3 h4]
  intro hmem
  simp only [List.mem_cons, List.mem_singleton] at hmem
  rcases hmem with he | he | he | he
  · exact strNe markSeg.data "def ".data (lit_decomp markSeg) (defLine_decomp c)
      (by decide) (by decide) he
  · exact absurd he (by decide)
  · exact absurd he (by decide)
  · exact absurd he (by decide)

theorem metaSeg_mem_iff (c : Ctx) : metaSeg ∈ renderSegs c ↔ metaB c = true := by
  constructor
  · intro hmem
    cases hb : metaB c
    · exact absurd hmem (metaSeg_notin_pass c hb)
    · rfl
  · intro hb
    have hms : metaSegs c = [metaSeg] := by rw [metaSegs, hb]; rfl
    rw [renderSegs, hms]
    simp [List.mem_append]

theorem markSeg_mem_iff (c : Ctx) : markSeg ∈ renderSegs c ↔ metaB c = true := by
  constructor
  · intro hmem
    cases hb : metaB c
    · exact absurd hmem (markSeg_notin_pass c hb)
    · rfl
  · intro hb
    have hmk : markSegs c = [markSeg] := by rw [markSegs, hb]; rfl
    rw [renderSegs, hmk]
    simp [List.mem_append]

/-- C5: the emitted code contains the `init_metadata` chunk iff it
contains the `mark_execution_complete` chunk, both exactly when
`autosnapshot` is true or one of `in_variables`, `out_variables`,
`function_body` is non-empty; in that case the `init_metadata` chunk
follows only the `def` line and the optional pipeline-parameters block
(so it precedes every other emitted statement of the function body) and
the `mark_execution_complete` chunk is the last emitted chunk (so it is
never followed by any other emitted statement). -/
theorem claim_C5 (c : Ctx) :
    ((metaSeg ∈ renderSegs c) ↔ (markSeg ∈ renderSegs c)) ∧
    ((metaSeg ∈ renderSegs c) ↔
      (c.autosnapshot = true ∨ c.in_variables ≠ [] ∨ c.out_variables ≠ [] ∨ c.function_body ≠ [])) ∧
    ((c.autosnapshot = true ∨ c.in_variables ≠ [] ∨ c.out_variables ≠ [] ∨ c.function_body ≠ []) →
      (∃ rest, renderSegs c = [defLine c] ++
        ((if c.parameters_names.isEmpty then [] else [paramsBlock c]) ++ (metaSeg :: rest))) ∧
      (∃ front, renderSegs c = front ++ [markSeg])) := by
  refine ⟨?_, ?_, ?_⟩
  · rw [metaSeg_mem_iff, markSeg_mem_iff]
  · rw [metaSeg_mem_iff]
    exact ⟨conds_of_metaB c, metaB_of_conds c⟩
  · intro h
    have hmB := metaB_of_conds c h
    have hpB : passB c = false := by rw [passB_not_metaB, hmB]; rfl
    have hms : metaSegs c = [metaSeg] := by rw [metaSegs, hmB]; rfl
    have hmk : markSegs c = [markSeg] := by rw [markSegs, hmB]; rfl
    have hpp : passOrParams c = if c.parameters_names.isEmpty then [] else [paramsBlock c] := by
      rw [passOrParams, hpB]
      rfl
    constructor
    · refine ⟨["\n"] ++ (snapBSegs c ++ (blockSegs c ++ (["\n\n"] ++ (runSegs c ++
        (snapASegs c ++ markSegs c))))), ?_⟩
      rw [renderSegs, hms, hpp]
      rfl
    · refine ⟨[defLine c] ++ (passOrParams c ++ (metaSegs c ++ (["\n"] ++ (snapBSegs c ++
        (blockSegs c ++ (["\n\n"] ++ (runSegs c ++ snapASegs c))))))), ?_⟩
      rw [renderSegs, hmk]
      simp [List.append_assoc]

def c5x : Ctx := ⟨"s5", ["q"], ["int"], true, [], [], [], "p", "n", "/m"⟩

theorem claim_C5_witness :
    (∃ rest, renderSegs c5x = [defLine c5x] ++
      ((if c5x.parameters_names.isEmpty then [] else [paramsBlock c5x]) ++ (metaSeg :: rest))) ∧
    (∃ front, renderSegs c5x = front ++ [markSeg]) :=
  (claim_C5 c5x).2.2 (Or.inl rfl)

/-- C4: when `autosnapshot` is true, the before-snapshot chunk (a
`snapshot_pipeline_step` call on `pipeline_name`, `step_name`,
`nb_path` with `before=True`) is emitted, before the code blocks, iff
`step_name` is not `final_auto_snapshot`; the after-snapshot chunk
(same call with `before=False`, whose result is submitted via
`submit_output_rok_artifact`, see the `strInfix` conjunct) always
appears after the code blocks; when `autosnapshot` is false neither
snapshot chunk is emitted. -/
theorem claim_C4 (c : Ctx) :
    (c.autosnapshot = true →
      ((snapBeforeSeg c ∈ renderSegs c ↔ c.step_name ≠ "final_auto_snapshot") ∧
       (c.step_name ≠ "final_auto_snapshot" →
         renderSegs c = ([defLine c] ++ (passOrParams c ++ (metaSegs c ++ ["\n"]))) ++
           (snapBeforeSeg c :: (blockSegs c ++ (["\n\n"] ++ (runSegs c ++
             (snapAfterSeg c :: [markSeg])))))) ∧
       (renderSegs c = ([defLine c] ++ (passOrParams c ++ (metaSegs c ++ (["\n"] ++ snapBSegs c)))) ++
         (blockSegs c ++ (["\n\n"] ++ (runSegs c ++ (snapAfterSeg c :: markSegs c))))) ∧
       strInfix submitCallLit (snapAfterSeg c))) ∧
    (c.autosnapshot = false →
      snapBeforeSeg c ∉ renderSegs c ∧ snapAfterSeg c ∉ renderSegs c) := by
  constructor
  · intro ha
    have hmB : metaB c = true := by simp [metaB, ha]
    have hsa : snapASegs c = [snapAfterSeg c] := by rw [snapASegs, ha]; rfl
    have hmk : markSegs c = [markSeg] := by rw [markSegs, hmB]; rfl
    refine ⟨⟨?_, ?_⟩, ?_, ?_, ?_⟩
    · intro hmem
      have hcond := snapBeforeSeg_mem c hmem
      rw [ha, Bool.true_and, Bool.not_eq_true'] at hcond
      exact strNe_of_beq_false hcond
    · intro hne
      have hcond : (c.autosnapshot && !(c.step_name == "final_auto_snapshot")) = true := by
        rw [ha, strBeq_false_of_ne hne]
        rfl
      have hsb : snapBSegs c = [snapBeforeSeg c] := by rw [snapBSegs, hcond]; rfl
      rw [renderSegs, hsb]
      simp [List.mem_append]
    · intro hne
      have hcond : (c.autosnapshot && !(c.step_name == "final_auto_snapshot")) = true := by
        rw [ha, strBeq_false_of_ne hne]
        rfl
      have hsb : snapBSegs c = [snapBeforeSeg c] := by rw [snapBSegs, hcond]; rfl
      rw [renderSegs, hsb, hsa, hmk]
      simp [List.append_assoc]
    · rw [renderSegs, hsa]
      simp [List.append_assoc]
    · refine ⟨((if c.step_name == "final_auto_snapshot" then finalExtraLit else "") ++
        (snapACoreLit ++ (c.pipeline_name ++ (quoteSep ++ (c.step_name ++ (quoteSep ++
          (c.nb_path ++ snapATail))))))).data, [], ?_⟩
      rw [snapAfterSeg]
      simp [snapACore, data_app, List.append_assoc]
  · intro ha
    constructor
    · intro hmem
      have hcond := snapBeforeSeg_mem c hmem
      rw [ha] at hcond
      simp at hcond
    · intro hmem
      have hcond := snapAfterSeg_mem c hmem
      rw [ha] at hcond
      simp at hcond

def c4a : Ctx := ⟨"s4", [], [], true, ["i"], [], [], "p", "n", "/m"⟩

def c4b : Ctx := ⟨"s4b", [], [], false, ["i"], [], [], "p", "n", "/m"⟩

theorem claim_C4_witness :
    (snapBeforeSeg c4a ∈ renderSegs c4a ↔ c4a.step_name ≠ "final_auto_snapshot") ∧
    (renderSegs c4a = ([defLine c4a] ++ (passOrParams c4a ++ (metaSegs c4a ++ ["\n"]))) ++
      (snapBeforeSeg c4a :: (blockSegs c4a ++ (["\n\n"] ++ (runSegs c4a ++
        (snapAfterSeg c4a :: [markSeg])))))) ∧
    (renderSegs c4a = ([defLine c4a] ++ (passOrParams c4a ++ (metaSegs c4a ++ (["\n"] ++ snapBSegs c4a)))) ++
      (blockSegs c4a ++ (["\n\n"] ++ (runSegs c4a ++ (snapAfterSeg c4a :: markSegs c4a))))) ∧
    strInfix submitCallLit (snapAfterSeg c4a) ∧
    (snapBeforeSeg c4b ∉ renderSegs c4b ∧ snapAfterSeg c4b ∉ renderSegs c4b) :=
  ⟨((claim_C4 c4a).1 rfl).1, ((claim_C4 c4a).1 rfl).2.1 (by decide),
   ((claim_C4 c4a).1 rfl).2.2.1, ((claim_C4 c4a).1 rfl).2.2.2, (claim_C4 c4b).2 rfl⟩
